import Mathlib

/-!
Shallow embedding of `src/async.cpp` (bulk command aggregator with
asynchronous console/file logging) and verification of its specification.

The C++ `Bulk` class accumulates commands in a `std::stringstream` that is
initialised with the text `"bulk:"`.  `Bulk::log` pushes the accumulated
string to a global file queue (paired with a generated file name) and to a
global console queue, and bumps a global monotone counter used in the file
name.  `Bulk::flush` calls `log` only when the nesting level is 0, and
`Bulk::process` implements the `{` / `}` / plain-command state machine.
Time (`std::time(nullptr)`) is modelled by passing the current time `now`
as an explicit argument.
-/

/-- State of one `Bulk` aggregator (fields of the C++ class `Bulk`). -/
structure Bulk where
  m_cmds : String
  m_buffer_size : Nat
  m_nCmds : Nat
  m_time : Nat
  m_nestingLvl : Int
  deriving Repr, DecidableEq

/-- The process-wide state touched by `Bulk::log`: the static counter used
for file names (`postfix_counter` in the source) and the two logger queues
of class `Logger`.  Queues are lists, front at the head; `push` appends. -/
structure Global where
  seqCounter : Nat
  consoleQ : List String
  fileQ : List (String × String)
  deriving Repr, DecidableEq

/-- Digit characters of `n` in base 10, most significant first, computed
structurally with a fuel argument so that it evaluates in the kernel. -/
def decCharsAux : Nat → Nat → List Char
  | 0, _ => []
  | fuel + 1, n =>
      if n = 0 then []
      else decCharsAux fuel (n / 10) ++ [Nat.digitChar (n % 10)]

/-- Decimal digit characters of `n`, most significant first: the embedding
of C++ `std::to_string` on a non-negative integer. -/
def decChars (n : Nat) : List Char :=
  if n = 0 then ['0'] else decCharsAux n n

/-- `std::to_string` of a non-negative value, as a Lean `String`. -/
def decRepr (n : Nat) : String := String.mk (decChars n)

/-- The file name built in `Bulk::log`:
`"bulk" + std::to_string(m_time) + "_" + std::to_string(postfix_counter) + ".log"`. -/
def bulkFilename (time ctr : Nat) : String :=
  "bulk" ++ decRepr time ++ "_" ++ decRepr ctr ++ ".log"

/-- The modulus of the counter `postfix_counter`, which is a
`std::atomic<unsigned int>`: unsigned arithmetic wraps, so `++` is an
increment modulo `2 ^ N` where `N` is the width of `unsigned int` (at
least 16 by the C++ standard; 32 on the mainstream platforms modelled
here). -/
def uintMod : Nat := 2 ^ 32

/-- `Bulk::log`.  If `m_nCmds > 0` the accumulated string is pushed to the
file queue (with the generated file name, which reads the counter before
the increment) and to the console queue, and the global `unsigned int`
counter is incremented, wrapping modulo `uintMod`.  In all cases the
member state is then reset: nesting level and command count to 0, time to
now, text to `"bulk:"`. -/
def Bulk.log (now : Nat) (b : Bulk) (g : Global) : Bulk × Global :=
  let g' :=
    if b.m_nCmds > 0 then
      { seqCounter := (g.seqCounter + 1) % uintMod,
        consoleQ := g.consoleQ ++ [b.m_cmds],
        fileQ := g.fileQ ++ [(bulkFilename b.m_time g.seqCounter, b.m_cmds)] }
    else g
  ({ m_cmds := "bulk:", m_buffer_size := b.m_buffer_size, m_nCmds := 0,
     m_time := now, m_nestingLvl := 0 }, g')

/-- `Bulk::flush`: call `log` only when `m_nestingLvl == 0`. -/
def Bulk.flush (now : Nat) (b : Bulk) (g : Global) : Bulk × Global :=
  if b.m_nestingLvl = 0 then Bulk.log now b g else (b, g)

/-- `Bulk::process`.  `"\x7b"`: flush when at level 0, then increment the
nesting level.  `"\x7d"`: decrement the level, flush when it reaches 0.
Otherwise: append `","` when commands are already buffered (else record the
time), append `" " + cmd`, bump the count, and flush when the count reaches
the buffer size at level 0. -/
def Bulk.process (now : Nat) (cmd : String) (b : Bulk) (g : Global) : Bulk × Global :=
  if cmd = "\x7b" then
    let bg := if b.m_nestingLvl = 0 then Bulk.flush now b g else (b, g)
    ({ bg.1 with m_nestingLvl := bg.1.m_nestingLvl + 1 }, bg.2)
  else if cmd = "\x7d" then
    let b1 := { b with m_nestingLvl := b.m_nestingLvl - 1 }
    if b1.m_nestingLvl = 0 then Bulk.flush now b1 g else (b1, g)
  else
    let b1 := { b with
      m_cmds := (if b.m_nCmds > 0 then b.m_cmds ++ "," else b.m_cmds) ++ " " ++ cmd,
      m_time := if b.m_nCmds > 0 then b.m_time else now,
      m_nCmds := b.m_nCmds + 1 }
    if b1.m_nCmds = b1.m_buffer_size ∧ b1.m_nestingLvl = 0 then
      Bulk.flush now b1 g
    else (b1, g)

/-- The state built by the `Bulk` constructor (called from `async::connect`):
stream text `"bulk:"`, the requested buffer size, zero commands, the current
time, nesting level 0. -/
def mkBulk (buffer_size : Nat) (now : Nat) : Bulk :=
  { m_cmds := "bulk:", m_buffer_size := buffer_size, m_nCmds := 0,
    m_time := now, m_nestingLvl := 0 }

/-- Process a list of timestamped commands in order (as `async::receive`
feeds each extracted command to `Bulk::process`). -/
def Bulk.processAll (evs : List (Nat × String)) (b : Bulk) (g : Global) : Bulk × Global :=
  evs.foldl (fun bg e => Bulk.process e.1 e.2 bg.1 bg.2) (b, g)

/-- The empty global state (program start: counter 0, both queues empty). -/
def g0 : Global := { seqCounter := 0, consoleQ := [], fileQ := [] }

/-- The batch wire format, written from the specification's words: the
literal `"bulk:"`, then one space and the first command, then `", "` plus
each subsequent command, in arrival order. -/
def specFormat : List String → String
  | [] => "bulk:"
  | c :: rest => rest.foldl (fun s c2 => s ++ ", " ++ c2) ("bulk: " ++ c)

/-! ## Session API (`namespace async`) and undefined behaviour

`connect` allocates a `Bulk` with `new` and returns the pointer as an opaque
handle; `disconnect` checks the handle against `nullptr`, flushes and
`delete`s; `receive` checks against `nullptr`, splits the data on newlines,
drops empty lines, and feeds each command to `Bulk::process`.  The heap is
modelled as a list of slots; a freed slot is `none`.  A handle is `none`
(the null pointer) or `some i` (a pointer to slot `i`).  Dereferencing or
`delete`ing a freed or never-allocated slot is undefined behaviour in C++,
modelled as the result `none`. -/

/-- Split a character stream at newline characters, keeping the final
segment, as the `std::getline` loop of `async::receive` does. -/
def splitNl : List Char → List Char → List (List Char)
  | [], acc => [acc.reverse]
  | c :: rest, acc =>
      if c = '\n' then acc.reverse :: splitNl rest [] else splitNl rest (c :: acc)

/-- Newline splitting done by `async::receive` (`std::getline` loop,
skipping empty lines). -/
def splitLines (data : String) : List String :=
  ((splitNl data.data []).map String.mk).filter (fun s => s ≠ "")

/-- Process a list of commands in order with a common timestamp, as one
`async::receive` call does. -/
def Bulk.processList (now : Nat) (cmds : List String) (b : Bulk) (g : Global) :
    Bulk × Global :=
  cmds.foldl (fun bg c => Bulk.process now c bg.1 bg.2) (b, g)

/-- The heap of sessions plus the global logger state. -/
structure World where
  heap : List (Option Bulk)
  glob : Global
  deriving Repr, DecidableEq

/-- One call of the session API.  A handle value of `none` is the null
pointer; `some i` points at heap slot `i` (so `connect` hands out
`some heap.length`). -/
inductive Event where
  | connect (cap : Nat) (now : Nat)
  | receive (h : Option Nat) (now : Nat) (data : String)
  | disconnect (h : Option Nat) (now : Nat)
  deriving Repr

/-- Semantics of one API call; `none` is undefined behaviour (use of a
dangling or wild pointer).  Mirrors `async::connect`, `async::receive`,
`async::disconnect`: the null-pointer checks are the source's `if (!pBulk)
return;`, and nothing guards against a pointer whose object was deleted. -/
def stepE : Event → World → Option World
  | .connect cap now, w =>
      some { heap := w.heap ++ [some (mkBulk cap now)], glob := w.glob }
  | .receive none _ _, w => some w
  | .receive (some i) now data, w =>
      match w.heap[i]? with
      | some (some b) =>
          let bg := Bulk.processList now (splitLines data) b w.glob
          some { heap := w.heap.set i (some bg.1), glob := bg.2 }
      | _ => none
  | .disconnect none _, w => some w
  | .disconnect (some i) now, w =>
      match w.heap[i]? with
      | some (some b) =>
          some { heap := w.heap.set i none, glob := (Bulk.flush now b w.glob).2 }
      | _ => none

/-- Run a list of API calls from a world; undefined behaviour is absorbing. -/
def runEvents (evs : List Event) (w : World) : Option World :=
  evs.foldlM (fun w e => stepE e w) w

/-- The initial world: no sessions, empty queues, counter 0. -/
def w0 : World := { heap := [], glob := g0 }

/-! ## Nesting-depth bookkeeping -/

/-- Depth change caused by one command. -/
def cmdDelta (c : String) : Int :=
  if c = "\x7b" then 1 else if c = "\x7d" then -1 else 0

/-- Total depth change of a command sequence. -/
def sumDelta (evs : List (Nat × String)) : Int :=
  (evs.map (fun e => cmdDelta e.2)).sum

/-- The plain (non-marker) commands of a sequence, in order. -/
def plainCmds (evs : List (Nat × String)) : List String :=
  (evs.filter (fun e => e.2 ≠ "\x7b" ∧ e.2 ≠ "\x7d")).map Prod.snd

/-- Starting from depth `d`, the depth stays at least 1 after every command
of the sequence. -/
def depthOkFrom (d : Int) : List (Nat × String) → Bool
  | [] => true
  | e :: rest =>
      let d' := d + cmdDelta e.2
      decide (1 ≤ d') && depthOkFrom d' rest

/-- The events of the concrete capacity-3 scenario of the specification:
`cmd1, {, cmd2, cmd3, }, cmd4`, then disconnect. -/
def scenarioEvents : List Event :=
  [.connect 3 0, .receive (some 0) 1 "cmd1", .receive (some 0) 2 "\x7b",
   .receive (some 0) 3 "cmd2", .receive (some 0) 4 "cmd3",
   .receive (some 0) 5 "\x7d", .receive (some 0) 6 "cmd4",
   .disconnect (some 0) 7]

/-- Starting from depth `d`, the running depth stays ≥ 0 after every
command of the sequence (no prefix closes more blocks than were open). -/
def nonNegFrom (d : Int) : List (Nat × String) → Bool
  | [] => true
  | e :: rest =>
      let d' := d + cmdDelta e.2
      decide (0 ≤ d') && nonNegFrom d' rest

/-- Invariant of the global state: all file names in the queue are
pairwise distinct, and each was built with a counter value below the
current counter. -/
def NamesOK (g : Global) : Prop :=
  g.seqCounter = g.fileQ.length % uintMod ∧
  ∀ (i : Nat) (hi : i < g.fileQ.length),
    ∃ t, (g.fileQ.get ⟨i, hi⟩).1 = bulkFilename t (i % uintMod)

/-- One `receive` call delivering the single plain command `a` at time 5. -/
def recvA : Event := Event.receive (some 0) 5 "a"

/-- The state of a capacity-1 session between two flushes with time 5. -/
def bulkA : Bulk := ⟨"bulk:", 1, 0, 5, 0⟩

/-- A run that flushes `uintMod + 1` batches, all with the same `time_t`
value 5: connect with capacity 1, then `uintMod + 1` single-command
receives, each of which flushes one batch. -/
def evsWrap : List Event :=
  Event.connect 1 0 :: recvA :: List.replicate uintMod recvA

/-- The world reached by `evsWrap`: the counter has wrapped past
`uintMod`, and the file queue holds `uintMod + 1` items whose names reuse
the counter values `0, 1, ..., uintMod - 1, 0`. -/
def wrapWorld : World :=
  ⟨[some bulkA],
   ⟨(1 + uintMod) % uintMod,
    "bulk: a" :: List.replicate uintMod "bulk: a",
    (bulkFilename 5 0, "bulk: a")
      :: (List.range uintMod).map
           (fun i => (bulkFilename 5 ((1 + i) % uintMod), "bulk: a"))⟩⟩

/-! ## Shutdown of the logger workers (C9)

`Logger::~Logger` (lines 61-65 of the source) executes exactly two kinds of
synchronisation actions: it stores `true` into the atomic stop flag and
then joins each of the three worker threads.  The claim (and the spec) say
it also wakes all waiting workers; the destructor body contains no
`notify_one`/`notify_all` call on either condition variable.  A worker
blocked in `condition_variable::wait` re-checks its predicate only when
notified, so a worker waiting on an empty queue at shutdown is never
woken.  The loop itself does drain: its exit test (`queue.empty() &&
stop`) refuses to exit while items remain. -/

/-- The synchronisation actions a `Logger` destructor could perform. -/
inductive DtorAction where
  | setStopFlag
  | notifyConsoleCv
  | notifyFileCv
  | joinWorker
  deriving DecidableEq, Repr

/-- The actions `Logger::~Logger` actually performs, in order:
`s_bStopWorkers = true;` then `thr.join()` for the three workers. -/
def loggerDtorActions : List DtorAction :=
  [DtorAction.setStopFlag, DtorAction.joinWorker, DtorAction.joinWorker,
   DtorAction.joinWorker]

/-- The worker loop's exit test, from `console_logger`/`file_logger`:
`if (queue.empty() && s_bStopWorkers) break;`. -/
def workerExits (queueEmpty stopFlag : Bool) : Bool :=
  queueEmpty && stopFlag

/-! ## Theorems -/

theorem specFormat_snoc (p : List String) (c : String) (hp : p ≠ []) :
    specFormat (p ++ [c]) = specFormat p ++ ", " ++ c := by
  match p with
  | a :: rest => simp [specFormat, List.foldl_append]

/-- Appending one command to the stream the way `Bulk::process` does yields
the spec format of the extended command list. -/
theorem cmds_step (p : List String) (c : String) :
    (if 0 < p.length then specFormat p ++ "," else specFormat p) ++ " " ++ c
      = specFormat (p ++ [c]) := by
  match p with
  | [] => simp [specFormat]
  | a :: rest =>
    rw [if_pos (by simp), specFormat_snoc _ _ (by simp)]
    have h1 : ("," : String).data = [','] := rfl
    have h2 : (" " : String).data = [' '] := rfl
    have h3 : (", " : String).data = [',', ' '] := rfl
    apply String.ext
    simp [String.data_append, h1, h2, h3]

/-! ## Unfolding lemmas for the three branches of `Bulk::process` -/

theorem Bulk.process_open (now : Nat) (b : Bulk) (g : Global)
    (h : b.m_nestingLvl ≠ 0) :
    Bulk.process now "\x7b" b g = ({ b with m_nestingLvl := b.m_nestingLvl + 1 }, g) := by
  simp [Bulk.process, h]

theorem Bulk.process_open_zero (now : Nat) (b : Bulk) (g : Global)
    (h : b.m_nestingLvl = 0) (hn : b.m_nCmds = 0) :
    Bulk.process now "\x7b" b g
      = ({ m_cmds := "bulk:", m_buffer_size := b.m_buffer_size, m_nCmds := 0,
           m_time := now, m_nestingLvl := 1 }, g) := by
  simp [Bulk.process, Bulk.flush, Bulk.log, h, hn]

theorem Bulk.process_close (now : Nat) (b : Bulk) (g : Global)
    (h : ¬ b.m_nestingLvl - 1 = 0) :
    Bulk.process now "\x7d" b g = ({ b with m_nestingLvl := b.m_nestingLvl - 1 }, g) := by
  simp [Bulk.process, h]

theorem Bulk.process_close_one (now : Nat) (b : Bulk) (g : Global)
    (h : b.m_nestingLvl = 1) :
    Bulk.process now "\x7d" b g = Bulk.log now { b with m_nestingLvl := 0 } g := by
  simp [Bulk.process, Bulk.flush, h]

theorem Bulk.process_plain_inside (now : Nat) (c : String) (b : Bulk) (g : Global)
    (hc1 : c ≠ "\x7b") (hc2 : c ≠ "\x7d") (h : b.m_nestingLvl ≠ 0) :
    Bulk.process now c b g
      = ({ b with
            m_cmds := (if b.m_nCmds > 0 then b.m_cmds ++ "," else b.m_cmds) ++ " " ++ c,
            m_time := if b.m_nCmds > 0 then b.m_time else now,
            m_nCmds := b.m_nCmds + 1 }, g) := by
  simp [Bulk.process, hc1, hc2, h]

theorem Bulk.processAll_nil (b : Bulk) (g : Global) :
    Bulk.processAll [] b g = (b, g) := rfl

theorem Bulk.processAll_cons (e : Nat × String) (evs : List (Nat × String))
    (b : Bulk) (g : Global) :
    Bulk.processAll (e :: evs) b g
      = Bulk.processAll evs (Bulk.process e.1 e.2 b g).1 (Bulk.process e.1 e.2 b g).2 :=
  rfl

theorem Bulk.processAll_append (l1 l2 : List (Nat × String)) (b : Bulk) (g : Global) :
    Bulk.processAll (l1 ++ l2) b g
      = Bulk.processAll l2 (Bulk.processAll l1 b g).1 (Bulk.processAll l1 b g).2 := by
  simp [Bulk.processAll, List.foldl_append]

theorem cmdDelta_open : cmdDelta "\x7b" = 1 := rfl

theorem cmdDelta_close : cmdDelta "\x7d" = -1 := rfl

theorem cmdDelta_plain (c : String) (hc1 : c ≠ "\x7b") (hc2 : c ≠ "\x7d") :
    cmdDelta c = 0 := by
  simp [cmdDelta, hc1, hc2]

theorem plainCmds_nil : plainCmds [] = [] := rfl

theorem plainCmds_cons_open (t : Nat) (rest : List (Nat × String)) :
    plainCmds ((t, "\x7b") :: rest) = plainCmds rest := by
  simp [plainCmds]

theorem plainCmds_cons_close (t : Nat) (rest : List (Nat × String)) :
    plainCmds ((t, "\x7d") :: rest) = plainCmds rest := by
  simp [plainCmds]

theorem plainCmds_cons_plain (t : Nat) (c : String) (rest : List (Nat × String))
    (hc1 : c ≠ "\x7b") (hc2 : c ≠ "\x7d") :
    plainCmds ((t, c) :: rest) = c :: plainCmds rest := by
  simp [plainCmds, hc1, hc2]

theorem sumDelta_nil : sumDelta [] = 0 := rfl

theorem sumDelta_cons (t : Nat) (c : String) (rest : List (Nat × String)) :
    sumDelta ((t, c) :: rest) = cmdDelta c + sumDelta rest := by
  simp [sumDelta]

/-- Inside a block (depth never returning below 1), processing any command
sequence emits nothing: the queues and counter are untouched, the markers
only move the depth, and the plain commands are appended to the buffer in
order. -/
theorem processAll_inside (evs : List (Nat × String)) :
    ∀ (b : Bulk) (g : Global) (p : List String),
    b.m_cmds = specFormat p → b.m_nCmds = p.length →
    1 ≤ b.m_nestingLvl → depthOkFrom b.m_nestingLvl evs = true →
    (Bulk.processAll evs b g).2 = g ∧
    (Bulk.processAll evs b g).1.m_cmds = specFormat (p ++ plainCmds evs) ∧
    (Bulk.processAll evs b g).1.m_nCmds = (p ++ plainCmds evs).length ∧
    (Bulk.processAll evs b g).1.m_nestingLvl = b.m_nestingLvl + sumDelta evs ∧
    (Bulk.processAll evs b g).1.m_buffer_size = b.m_buffer_size := by
  induction evs with
  | nil =>
    intro b g p hcmds hn hd _
    simp [Bulk.processAll_nil, sumDelta, plainCmds, hcmds, hn]
  | cons e rest ih =>
    intro b g p hcmds hn hd hok
    obtain ⟨t, c⟩ := e
    rw [Bulk.processAll_cons]
    simp only [depthOkFrom, Bool.and_eq_true, decide_eq_true_eq] at hok
    obtain ⟨h1, h2⟩ := hok
    by_cases hco : c = "\x7b"
    · subst hco
      rw [cmdDelta_open] at h1 h2
      rw [Bulk.process_open t b g (by omega)]
      rw [plainCmds_cons_open, sumDelta_cons, cmdDelta_open]
      have h2' :
          depthOkFrom ({ b with m_nestingLvl := b.m_nestingLvl + 1 } : Bulk).m_nestingLvl rest
            = true := h2
      have hd' : 1 ≤ ({ b with m_nestingLvl := b.m_nestingLvl + 1 } : Bulk).m_nestingLvl := by
        show 1 ≤ b.m_nestingLvl + 1
        omega
      have := ih { b with m_nestingLvl := b.m_nestingLvl + 1 } g p hcmds hn hd' h2'
      refine ⟨this.1, this.2.1, this.2.2.1, ?_, this.2.2.2.2⟩
      rw [this.2.2.2.1]
      show b.m_nestingLvl + 1 + sumDelta rest = b.m_nestingLvl + (1 + sumDelta rest)
      ring
    · by_cases hcc : c = "\x7d"
      · subst hcc
        rw [cmdDelta_close] at h1 h2
        rw [Bulk.process_close t b g (by omega)]
        rw [plainCmds_cons_close, sumDelta_cons, cmdDelta_close]
        have h2' :
            depthOkFrom ({ b with m_nestingLvl := b.m_nestingLvl - 1 } : Bulk).m_nestingLvl rest
              = true := h2
        have hd' : 1 ≤ ({ b with m_nestingLvl := b.m_nestingLvl - 1 } : Bulk).m_nestingLvl := by
          show 1 ≤ b.m_nestingLvl - 1
          omega
        have := ih { b with m_nestingLvl := b.m_nestingLvl - 1 } g p hcmds hn hd' h2'
        refine ⟨this.1, this.2.1, this.2.2.1, ?_, this.2.2.2.2⟩
        rw [this.2.2.2.1]
        show b.m_nestingLvl - 1 + sumDelta rest = b.m_nestingLvl + (-1 + sumDelta rest)
        ring
      · rw [cmdDelta_plain c hco hcc, add_zero] at h1 h2
        rw [Bulk.process_plain_inside t c b g hco hcc (by omega)]
        rw [plainCmds_cons_plain t c rest hco hcc, sumDelta_cons, cmdDelta_plain c hco hcc]
        have hcm :
            (if b.m_nCmds > 0 then b.m_cmds ++ "," else b.m_cmds) ++ " " ++ c
              = specFormat (p ++ [c]) := by
          rw [hcmds, hn]
          exact cmds_step p c
        have hn' : b.m_nCmds + 1 = (p ++ [c]).length := by
          simp [hn]
        have := ih
          { b with
            m_cmds := (if b.m_nCmds > 0 then b.m_cmds ++ "," else b.m_cmds) ++ " " ++ c,
            m_time := if b.m_nCmds > 0 then b.m_time else t,
            m_nCmds := b.m_nCmds + 1 }
          g (p ++ [c]) hcm hn' hd h2
        refine ⟨this.1, ?_, ?_, ?_, this.2.2.2.2⟩
        · rw [this.2.1]
          simp
        · rw [this.2.2.1]
          simp
        · rw [this.2.2.2.1]
          show b.m_nestingLvl + sumDelta rest = b.m_nestingLvl + (0 + sumDelta rest)
          ring

/-- Effect of `Bulk::log` on the global state, for a buffer holding the
format of command list `p`: non-empty buffers push the same string to both
queues and bump the counter once; empty buffers change nothing. -/
theorem log_emits (b : Bulk) (p : List String) (g : Global) (now : Nat)
    (hcmds : b.m_cmds = specFormat p) (hn : b.m_nCmds = p.length) :
    (p ≠ [] →
      (Bulk.log now b g).2.consoleQ = g.consoleQ ++ [specFormat p] ∧
      (Bulk.log now b g).2.fileQ
        = g.fileQ ++ [(bulkFilename b.m_time g.seqCounter, specFormat p)] ∧
      (Bulk.log now b g).2.seqCounter = (g.seqCounter + 1) % uintMod) ∧
    (p = [] → (Bulk.log now b g).2 = g) := by
  constructor
  · intro hp
    have hpos : 0 < b.m_nCmds := by
      rw [hn]; exact List.length_pos.mpr hp
    simp [Bulk.log, hpos, hcmds]
  · intro hp
    subst hp
    simp only [List.length_nil] at hn
    simp [Bulk.log, hn]

/-- C1: `Bulk::log` with a non-empty buffer enqueues one string to the
console queue and one file item, the console string and the file content
are the exact same string, and that string is the spec wire format of the
buffered commands in arrival order; with an empty buffer it enqueues
nothing to either queue. -/
theorem C1_log_wire_format (b : Bulk) (p : List String) (g : Global) (now : Nat)
    (hcmds : b.m_cmds = specFormat p) (hn : b.m_nCmds = p.length) :
    (p ≠ [] →
      (Bulk.log now b g).2.consoleQ = g.consoleQ ++ [specFormat p] ∧
      (Bulk.log now b g).2.fileQ
        = g.fileQ ++ [(bulkFilename b.m_time g.seqCounter, specFormat p)]) ∧
    (p = [] → (Bulk.log now b g).2 = g) := by
  have h := log_emits b p g now hcmds hn
  exact ⟨fun hp => ⟨(h.1 hp).1, (h.1 hp).2.1⟩, h.2⟩

theorem C1_log_wire_format_witness :
    ((["a"] : List String) ≠ [] →
      (Bulk.log 0 ⟨"bulk: a", 5, 1, 3, 0⟩ g0).2.consoleQ
        = g0.consoleQ ++ [specFormat ["a"]] ∧
      (Bulk.log 0 ⟨"bulk: a", 5, 1, 3, 0⟩ g0).2.fileQ
        = g0.fileQ ++ [(bulkFilename (Bulk.mk "bulk: a" 5 1 3 0).m_time g0.seqCounter,
            specFormat ["a"])]) ∧
    ((["a"] : List String) = [] → (Bulk.log 0 ⟨"bulk: a", 5, 1, 3, 0⟩ g0).2 = g0) :=
  C1_log_wire_format ⟨"bulk: a", 5, 1, 3, 0⟩ ["a"] g0 0 (by decide) rfl

/-- C7: with capacity 3 and input `cmd1, {, cmd2, cmd3, }, cmd4` followed
by disconnect, exactly three batches are emitted: `"bulk: cmd1"` at the
moment the open marker arrives, `"bulk: cmd2, cmd3"` at the moment the
close marker returns the depth to 0, and `"bulk: cmd4"` at disconnect; the
file queue receives the same three contents. -/
theorem C7_capacity3_scenario :
    Option.map (fun w => w.glob.consoleQ) (runEvents (scenarioEvents.take 2) w0)
      = some [] ∧
    Option.map (fun w => w.glob.consoleQ) (runEvents (scenarioEvents.take 3) w0)
      = some ["bulk: cmd1"] ∧
    Option.map (fun w => w.glob.consoleQ) (runEvents (scenarioEvents.take 6) w0)
      = some ["bulk: cmd1", "bulk: cmd2, cmd3"] ∧
    Option.map (fun w => w.glob.consoleQ) (runEvents (scenarioEvents.take 7) w0)
      = some ["bulk: cmd1", "bulk: cmd2, cmd3"] ∧
    Option.map (fun w => w.glob.consoleQ) (runEvents scenarioEvents w0)
      = some ["bulk: cmd1", "bulk: cmd2, cmd3", "bulk: cmd4"] ∧
    Option.map (fun w => w.glob.fileQ.map Prod.snd) (runEvents scenarioEvents w0)
      = some ["bulk: cmd1", "bulk: cmd2, cmd3", "bulk: cmd4"] := by
  decide

/-- C2: starting a block with `{` from an idle session (empty buffer,
depth 0), processing any well-nested block body (depth stays ≥ 1 inside,
net depth change 0) followed by the matching `}` emits exactly one batch:
both queues receive exactly one item, whose content is the wire format of
all the block's plain commands in arrival order, independent of the
session's capacity; the batch appears only when the outermost close marker
returns the depth to 0 (no flush at inner block boundaries), and the depth
ends at 0. -/
theorem C2_block_one_batch (inner : List (Nat × String)) (t0 t1 : Nat)
    (b : Bulk) (g : Global)
    (hn : b.m_nCmds = 0) (hlvl : b.m_nestingLvl = 0)
    (hok : depthOkFrom 1 inner = true) (hbal : sumDelta inner = 0)
    (hne : plainCmds inner ≠ []) :
    (Bulk.processAll ((t0, "\x7b") :: (inner ++ [(t1, "\x7d")])) b g).2.consoleQ
        = g.consoleQ ++ [specFormat (plainCmds inner)] ∧
    ((Bulk.processAll ((t0, "\x7b") :: (inner ++ [(t1, "\x7d")])) b g).2.fileQ).map Prod.snd
        = g.fileQ.map Prod.snd ++ [specFormat (plainCmds inner)] ∧
    (Bulk.processAll ((t0, "\x7b") :: (inner ++ [(t1, "\x7d")])) b g).2.seqCounter
        = (g.seqCounter + 1) % uintMod ∧
    (Bulk.processAll ((t0, "\x7b") :: (inner ++ [(t1, "\x7d")])) b g).1.m_nestingLvl = 0 := by
  have step1 : Bulk.processAll ((t0, "\x7b") :: (inner ++ [(t1, "\x7d")])) b g
      = Bulk.processAll (inner ++ [(t1, "\x7d")])
          (⟨"bulk:", b.m_buffer_size, 0, t0, 1⟩ : Bulk) g := by
    rw [Bulk.processAll_cons, Bulk.process_open_zero t0 b g hlvl hn]
  obtain ⟨hg2, hcm2, hn2, hlvl2, _⟩ :=
    processAll_inside inner (⟨"bulk:", b.m_buffer_size, 0, t0, 1⟩ : Bulk) g []
      rfl rfl (le_refl 1) hok
  have hlvlX :
      (Bulk.processAll inner (⟨"bulk:", b.m_buffer_size, 0, t0, 1⟩ : Bulk) g).1.m_nestingLvl
        = 1 := by
    rw [hlvl2, hbal]
    rfl
  have step2 : Bulk.processAll (inner ++ [(t1, "\x7d")])
        (⟨"bulk:", b.m_buffer_size, 0, t0, 1⟩ : Bulk) g
      = Bulk.log t1
          { (Bulk.processAll inner (⟨"bulk:", b.m_buffer_size, 0, t0, 1⟩ : Bulk) g).1 with
            m_nestingLvl := 0 }
          g := by
    rw [Bulk.processAll_append]
    have h1 : Bulk.processAll [(t1, "\x7d")]
          (Bulk.processAll inner (⟨"bulk:", b.m_buffer_size, 0, t0, 1⟩ : Bulk) g).1
          (Bulk.processAll inner (⟨"bulk:", b.m_buffer_size, 0, t0, 1⟩ : Bulk) g).2
        = Bulk.process t1 "\x7d"
          (Bulk.processAll inner (⟨"bulk:", b.m_buffer_size, 0, t0, 1⟩ : Bulk) g).1
          (Bulk.processAll inner (⟨"bulk:", b.m_buffer_size, 0, t0, 1⟩ : Bulk) g).2 := rfl
    rw [h1, hg2, Bulk.process_close_one t1 _ g hlvlX]
  have hlog := log_emits
    { (Bulk.processAll inner (⟨"bulk:", b.m_buffer_size, 0, t0, 1⟩ : Bulk) g).1 with
      m_nestingLvl := 0 }
    (plainCmds inner) g t1 (by simpa using hcm2) (by simpa using hn2)
  have hmain := hlog.1 hne
  rw [step1, step2]
  refine ⟨hmain.1, ?_, hmain.2.2, rfl⟩
  rw [hmain.2.1]
  simp

theorem C2_block_one_batch_witness :
    (Bulk.processAll ((1, "\x7b") :: ([(2, "\x7b"), (3, "a"), (4, "\x7d"), (5, "b")] ++ [(6, "\x7d")]))
        (mkBulk 3 0) g0).2.consoleQ
      = g0.consoleQ ++ [specFormat (plainCmds [(2, "\x7b"), (3, "a"), (4, "\x7d"), (5, "b")])] ∧
    ((Bulk.processAll ((1, "\x7b") :: ([(2, "\x7b"), (3, "a"), (4, "\x7d"), (5, "b")] ++ [(6, "\x7d")]))
        (mkBulk 3 0) g0).2.fileQ).map Prod.snd
      = g0.fileQ.map Prod.snd
          ++ [specFormat (plainCmds [(2, "\x7b"), (3, "a"), (4, "\x7d"), (5, "b")])] ∧
    (Bulk.processAll ((1, "\x7b") :: ([(2, "\x7b"), (3, "a"), (4, "\x7d"), (5, "b")] ++ [(6, "\x7d")]))
        (mkBulk 3 0) g0).2.seqCounter = (g0.seqCounter + 1) % uintMod ∧
    (Bulk.processAll ((1, "\x7b") :: ([(2, "\x7b"), (3, "a"), (4, "\x7d"), (5, "b")] ++ [(6, "\x7d")]))
        (mkBulk 3 0) g0).1.m_nestingLvl = 0 :=
  C2_block_one_batch [(2, "\x7b"), (3, "a"), (4, "\x7d"), (5, "b")] 1 6 (mkBulk 3 0) g0
    rfl rfl (by decide) (by decide) (by decide)

theorem Bulk.process_plain_no_flush (now : Nat) (c : String) (b : Bulk) (g : Global)
    (hc1 : c ≠ "\x7b") (hc2 : c ≠ "\x7d") (h : ¬ b.m_nCmds + 1 = b.m_buffer_size) :
    Bulk.process now c b g
      = ({ b with
            m_cmds := (if b.m_nCmds > 0 then b.m_cmds ++ "," else b.m_cmds) ++ " " ++ c,
            m_time := if b.m_nCmds > 0 then b.m_time else now,
            m_nCmds := b.m_nCmds + 1 }, g) := by
  simp [Bulk.process, hc1, hc2, h]

theorem Bulk.process_plain_thresh (now : Nat) (c : String) (b : Bulk) (g : Global)
    (hc1 : c ≠ "\x7b") (hc2 : c ≠ "\x7d") (hlvl : b.m_nestingLvl = 0)
    (hfull : b.m_nCmds + 1 = b.m_buffer_size) :
    Bulk.process now c b g
      = Bulk.log now
          { b with
            m_cmds := (if b.m_nCmds > 0 then b.m_cmds ++ "," else b.m_cmds) ++ " " ++ c,
            m_time := if b.m_nCmds > 0 then b.m_time else now,
            m_nCmds := b.m_nCmds + 1 } g := by
  simp [Bulk.process, Bulk.flush, hc1, hc2, hlvl, hfull]

/-- Processing, at depth 0, exactly the plain commands that bring the
buffer from `p` up to the capacity emits exactly one batch holding
`p ++ cmds` and resets the session to an empty buffer at depth 0. -/
theorem processAll_chunk (cmds : List (Nat × String)) :
    ∀ (b : Bulk) (g : Global) (p : List String),
    (∀ e ∈ cmds, e.2 ≠ "\x7b" ∧ e.2 ≠ "\x7d") →
    b.m_cmds = specFormat p → b.m_nCmds = p.length → b.m_nestingLvl = 0 →
    p.length + cmds.length = b.m_buffer_size → cmds ≠ [] →
    (Bulk.processAll cmds b g).2.consoleQ
        = g.consoleQ ++ [specFormat (p ++ cmds.map Prod.snd)] ∧
    (Bulk.processAll cmds b g).2.fileQ.map Prod.snd
        = g.fileQ.map Prod.snd ++ [specFormat (p ++ cmds.map Prod.snd)] ∧
    (Bulk.processAll cmds b g).2.seqCounter = (g.seqCounter + 1) % uintMod ∧
    ∃ tl, (Bulk.processAll cmds b g).1 = ⟨"bulk:", b.m_buffer_size, 0, tl, 0⟩ := by
  induction cmds with
  | nil => intro b g p _ _ _ _ _ hne; exact absurd rfl hne
  | cons e rest ih =>
    intro b g p hplain hcmds hn hlvl hlen _
    obtain ⟨t, c⟩ := e
    obtain ⟨hc1, hc2⟩ := hplain (t, c) (List.mem_cons_self _ _)
    have hcm :
        (if b.m_nCmds > 0 then b.m_cmds ++ "," else b.m_cmds) ++ " " ++ c
          = specFormat (p ++ [c]) := by
      rw [hcmds, hn]
      exact cmds_step p c
    by_cases hrest : rest = []
    · subst hrest
      have hone : Bulk.processAll [(t, c)] b g = Bulk.process t c b g := rfl
      have hfull : b.m_nCmds + 1 = b.m_buffer_size := by
        simp only [List.length_cons, List.length_nil] at hlen
        omega
      rw [hone, Bulk.process_plain_thresh t c b g hc1 hc2 hlvl hfull]
      have hn' : b.m_nCmds + 1 = (p ++ [c]).length := by simp [hn]
      have hlog := (log_emits
        { b with
          m_cmds := (if b.m_nCmds > 0 then b.m_cmds ++ "," else b.m_cmds) ++ " " ++ c,
          m_time := if b.m_nCmds > 0 then b.m_time else t,
          m_nCmds := b.m_nCmds + 1 }
        (p ++ [c]) g t hcm hn').1 (by simp)
      refine ⟨by simpa using hlog.1, by rw [hlog.2.1]; simp, hlog.2.2, ?_⟩
      exact ⟨t, rfl⟩
    · have hrne : rest ≠ [] := hrest
      have hnf : ¬ b.m_nCmds + 1 = b.m_buffer_size := by
        have : 1 ≤ rest.length := List.length_pos.mpr hrne
        simp only [List.length_cons] at hlen
        omega
      rw [Bulk.processAll_cons]
      rw [show ((t, c) : Nat × String).1 = t from rfl, show ((t, c) : Nat × String).2 = c from rfl]
      rw [Bulk.process_plain_no_flush t c b g hc1 hc2 hnf]
      have hn' : b.m_nCmds + 1 = (p ++ [c]).length := by simp [hn]
      have hlen' : (p ++ [c]).length + rest.length = b.m_buffer_size := by
        simp only [List.length_append, List.length_cons, List.length_nil] at hlen ⊢
        omega
      have := ih
        { b with
          m_cmds := (if b.m_nCmds > 0 then b.m_cmds ++ "," else b.m_cmds) ++ " " ++ c,
          m_time := if b.m_nCmds > 0 then b.m_time else t,
          m_nCmds := b.m_nCmds + 1 }
        g (p ++ [c])
        (fun e he => hplain e (List.mem_cons_of_mem _ he))
        hcm hn' hlvl hlen' hrne
      refine ⟨?_, ?_, this.2.2.1, this.2.2.2⟩
      · rw [this.1]
        simp
      · rw [this.2.1]
        simp

/-- Iterating `processAll_chunk` over a list of capacity-sized chunks of
plain commands: each chunk becomes exactly one batch, in order. -/
theorem processAll_chunks (C : Nat) (chunks : List (List (Nat × String))) :
    ∀ (b : Bulk) (g : Global),
    1 ≤ C →
    (∀ ch ∈ chunks, ch.length = C ∧ ∀ e ∈ ch, e.2 ≠ "\x7b" ∧ e.2 ≠ "\x7d") →
    b.m_cmds = "bulk:" → b.m_nCmds = 0 → b.m_nestingLvl = 0 → b.m_buffer_size = C →
    g.seqCounter < uintMod →
    (Bulk.processAll chunks.flatten b g).2.consoleQ
        = g.consoleQ ++ chunks.map (fun ch => specFormat (ch.map Prod.snd)) ∧
    (Bulk.processAll chunks.flatten b g).2.fileQ.map Prod.snd
        = g.fileQ.map Prod.snd ++ chunks.map (fun ch => specFormat (ch.map Prod.snd)) ∧
    (Bulk.processAll chunks.flatten b g).2.seqCounter
        = (g.seqCounter + chunks.length) % uintMod ∧
    (Bulk.processAll chunks.flatten b g).1.m_nCmds = 0 ∧
    (Bulk.processAll chunks.flatten b g).1.m_nestingLvl = 0 := by
  induction chunks with
  | nil =>
    intro b g _ _ hcmds hn hlvl _ hsc
    simp [Bulk.processAll_nil, hn, hlvl, Nat.mod_eq_of_lt hsc]
  | cons ch rest ih =>
    intro b g hC hch hcmds hn hlvl hsz hsc
    obtain ⟨hchlen, hchplain⟩ := hch ch (List.mem_cons_self _ _)
    have hchne : ch ≠ [] := by
      intro hc
      rw [hc] at hchlen
      simp at hchlen
      omega
    have hflat : (ch :: rest).flatten = ch ++ rest.flatten := rfl
    rw [hflat, Bulk.processAll_append]
    have hck := processAll_chunk ch b g [] hchplain (by simpa [specFormat] using hcmds)
      (by simpa using hn) hlvl (by simp [hchlen, hsz]) hchne
    obtain ⟨hcon, hfile, hctr, tl, hst⟩ := hck
    have hsc1 : (Bulk.processAll ch b g).2.seqCounter < uintMod := by
      rw [hctr]
      exact Nat.mod_lt _ (by norm_num [uintMod])
    have hrest := ih (Bulk.processAll ch b g).1 (Bulk.processAll ch b g).2 hC
      (fun c hc => hch c (List.mem_cons_of_mem _ hc))
      (by rw [hst]) (by rw [hst]) (by rw [hst]) (by rw [hst]; exact hsz) hsc1
    refine ⟨?_, ?_, ?_, hrest.2.2.2.1, hrest.2.2.2.2⟩
    · rw [hrest.1, hcon]
      simp
    · rw [hrest.2.1, hfile]
      simp
    · rw [hrest.2.2.1, hctr, Nat.mod_add_mod]
      simp only [List.length_cons]
      congr 1
      omega

/-- C3: a session of capacity `C ≥ 1` fed `k = chunks.length * C` plain
commands (no markers), given here as the concatenation of `chunks.length`
consecutive groups of `C` commands each, emits exactly one batch per group,
in arrival order: the console queue and the file contents each gain the
list of wire-format strings of the groups, the counter grows by the number
of groups, and the buffer ends empty. -/
theorem C3_multiple_of_capacity (C : Nat) (hC : 1 ≤ C)
    (chunks : List (List (Nat × String)))
    (hch : ∀ ch ∈ chunks, ch.length = C ∧ ∀ e ∈ ch, e.2 ≠ "\x7b" ∧ e.2 ≠ "\x7d")
    (t0 : Nat) (g : Global) (hsc : g.seqCounter < uintMod) :
    (Bulk.processAll chunks.flatten (mkBulk C t0) g).2.consoleQ
        = g.consoleQ ++ chunks.map (fun ch => specFormat (ch.map Prod.snd)) ∧
    (Bulk.processAll chunks.flatten (mkBulk C t0) g).2.fileQ.map Prod.snd
        = g.fileQ.map Prod.snd ++ chunks.map (fun ch => specFormat (ch.map Prod.snd)) ∧
    (Bulk.processAll chunks.flatten (mkBulk C t0) g).2.seqCounter
        = (g.seqCounter + chunks.length) % uintMod ∧
    (Bulk.processAll chunks.flatten (mkBulk C t0) g).1.m_nCmds = 0 :=
  have h := processAll_chunks C chunks (mkBulk C t0) g hC hch rfl rfl rfl rfl hsc
  ⟨h.1, h.2.1, h.2.2.1, h.2.2.2.1⟩

theorem C3_multiple_of_capacity_witness :
    (Bulk.processAll ([[(0, "a"), (1, "b")], [(2, "c"), (3, "d")]] : List (List (Nat × String))).flatten
        (mkBulk 2 0) g0).2.consoleQ
      = g0.consoleQ
          ++ ([[(0, "a"), (1, "b")], [(2, "c"), (3, "d")]] : List (List (Nat × String))).map
               (fun ch => specFormat (ch.map Prod.snd)) ∧
    (Bulk.processAll ([[(0, "a"), (1, "b")], [(2, "c"), (3, "d")]] : List (List (Nat × String))).flatten
        (mkBulk 2 0) g0).2.fileQ.map Prod.snd
      = g0.fileQ.map Prod.snd
          ++ ([[(0, "a"), (1, "b")], [(2, "c"), (3, "d")]] : List (List (Nat × String))).map
               (fun ch => specFormat (ch.map Prod.snd)) ∧
    (Bulk.processAll ([[(0, "a"), (1, "b")], [(2, "c"), (3, "d")]] : List (List (Nat × String))).flatten
        (mkBulk 2 0) g0).2.seqCounter
      = (g0.seqCounter
          + ([[(0, "a"), (1, "b")], [(2, "c"), (3, "d")]] : List (List (Nat × String))).length)
          % uintMod ∧
    (Bulk.processAll ([[(0, "a"), (1, "b")], [(2, "c"), (3, "d")]] : List (List (Nat × String))).flatten
        (mkBulk 2 0) g0).1.m_nCmds = 0 :=
  C3_multiple_of_capacity 2 (by decide) [[(0, "a"), (1, "b")], [(2, "c"), (3, "d")]]
    (by decide) 0 g0 (by norm_num [uintMod, g0])

/-- The nesting level after one `Bulk::process` call: `+1` on an open
marker, `-1` on a close marker, unchanged on a plain command (a flush that
fires inside the call can only reset a level that is already 0). -/
theorem process_nestingLvl (now : Nat) (cmd : String) (b : Bulk) (g : Global) :
    (Bulk.process now cmd b g).1.m_nestingLvl = b.m_nestingLvl + cmdDelta cmd := by
  by_cases hco : cmd = "\x7b"
  · subst hco
    rw [cmdDelta_open]
    by_cases h : b.m_nestingLvl = 0
    · simp [Bulk.process, Bulk.flush, Bulk.log, h]
    · simp [Bulk.process, h]
  · by_cases hcc : cmd = "\x7d"
    · subst hcc
      rw [cmdDelta_close]
      by_cases h : b.m_nestingLvl - 1 = 0
      · simp [Bulk.process, Bulk.flush, Bulk.log, hco, h]
        omega
      · simp [Bulk.process, hco, h]
        omega
    · rw [cmdDelta_plain cmd hco hcc, add_zero]
      by_cases h : b.m_nCmds + 1 = b.m_buffer_size ∧ b.m_nestingLvl = 0
      · simp [Bulk.process, Bulk.flush, Bulk.log, hco, hcc, h.1, h.2]
      · rcases Decidable.not_and_iff_or_not.mp h with h1 | h2
        · rw [Bulk.process_plain_no_flush now cmd b g hco hcc h1]
        · simp [Bulk.process, hco, hcc, h2]

/-- The nesting level after a command sequence is the initial level plus
the sum of the per-command depth changes. -/
theorem processAll_nestingLvl (evs : List (Nat × String)) :
    ∀ (b : Bulk) (g : Global),
    (Bulk.processAll evs b g).1.m_nestingLvl = b.m_nestingLvl + sumDelta evs := by
  induction evs with
  | nil => intro b g; simp [Bulk.processAll_nil, sumDelta_nil]
  | cons e rest ih =>
    intro b g
    obtain ⟨t, c⟩ := e
    rw [Bulk.processAll_cons, sumDelta_cons]
    rw [ih (Bulk.process t c b g).1 (Bulk.process t c b g).2]
    rw [process_nestingLvl]
    ring

/-- `Bulk::flush` can change the console queue only when the nesting level
is exactly 0. -/
theorem flush_changes_only_at_zero (now : Nat) (b : Bulk) (g : Global)
    (h : (Bulk.flush now b g).2.consoleQ ≠ g.consoleQ) :
    b.m_nestingLvl = 0 := by
  by_cases hl : b.m_nestingLvl = 0
  · exact hl
  · exact absurd (by simp [Bulk.flush, hl]) h

/-- C5 counterexample: the claim says the nesting depth is an integer ≥ 0
after every `process` call, but a single close marker on a fresh session
drives the depth to -1. -/
theorem C5_counterexample :
    (Bulk.process 0 "\x7d" (mkBulk 3 0) g0).1.m_nestingLvl = -1 ∧
    ¬ 0 ≤ (Bulk.process 0 "\x7d" (mkBulk 3 0) g0).1.m_nestingLvl := by
  decide

theorem nonNegFrom_sum (evs : List (Nat × String)) :
    ∀ d : Int, 0 ≤ d → nonNegFrom d evs = true → 0 ≤ d + sumDelta evs := by
  induction evs with
  | nil => intro d hd _; rw [sumDelta_nil]; omega
  | cons e rest ih =>
    intro d hd hok
    obtain ⟨t, c⟩ := e
    simp only [nonNegFrom, Bool.and_eq_true, decide_eq_true_eq] at hok
    have := ih (d + cmdDelta c) hok.1 hok.2
    rw [sumDelta_cons]
    omega

/-- C5 (amended): the nesting depth changes by exactly +1 on an open
marker, -1 on a close marker and 0 on a plain command; consequently, from
a fresh session it stays ≥ 0 whenever no prefix of the input closes more
blocks than it opened; and a flush that changes the console queue can only
happen at depth exactly 0.  (The unconditional "depth ≥ 0 after each call"
of the claim is refuted by the counterexample.) -/
theorem C5_depth_invariant :
    (∀ (now : Nat) (cmd : String) (b : Bulk) (g : Global),
      (Bulk.process now cmd b g).1.m_nestingLvl = b.m_nestingLvl + cmdDelta cmd) ∧
    (∀ (evs : List (Nat × String)) (C t0 : Nat) (g : Global),
      nonNegFrom 0 evs = true →
      0 ≤ (Bulk.processAll evs (mkBulk C t0) g).1.m_nestingLvl) ∧
    (∀ (now : Nat) (b : Bulk) (g : Global),
      (Bulk.flush now b g).2.consoleQ ≠ g.consoleQ → b.m_nestingLvl = 0) := by
  refine ⟨process_nestingLvl, ?_, flush_changes_only_at_zero⟩
  intro evs C t0 g hq
  rw [processAll_nestingLvl evs (mkBulk C t0) g]
  have := nonNegFrom_sum evs 0 (le_refl 0) hq
  show 0 ≤ (mkBulk C t0).m_nestingLvl + sumDelta evs
  show (0 : Int) ≤ 0 + sumDelta evs
  omega

theorem C5_depth_invariant_witness :
    ((Bulk.process 0 "\x7b" (mkBulk 3 0) g0).1.m_nestingLvl
        = (mkBulk 3 0).m_nestingLvl + cmdDelta "\x7b") ∧
    (0 ≤ (Bulk.processAll [(0, "\x7b"), (1, "a"), (2, "\x7d")] (mkBulk 3 0) g0).1.m_nestingLvl) ∧
    ((Bulk.flush 0 ⟨"bulk: a", 3, 1, 0, 0⟩ g0).2.consoleQ ≠ g0.consoleQ
      → (⟨"bulk: a", 3, 1, 0, 0⟩ : Bulk).m_nestingLvl = 0) :=
  ⟨C5_depth_invariant.1 0 "\x7b" (mkBulk 3 0) g0,
   C5_depth_invariant.2.1 [(0, "\x7b"), (1, "a"), (2, "\x7d")] 3 0 g0 (by decide),
   C5_depth_invariant.2.2 0 ⟨"bulk: a", 3, 1, 0, 0⟩ g0⟩

/-- C6 counterexample: after an unmatched close marker drives the depth to
-1on a fresh session, two additional close markers leave the depth at -3,
not 0 as the claim states. -/
theorem C6_counterexample :
    (Bulk.process 0 "\x7d" (mkBulk 3 0) g0).1.m_nestingLvl = -1 ∧
    (Bulk.processAll [(0, "\x7d"), (1, "\x7d"), (2, "\x7d")] (mkBulk 3 0) g0).1.m_nestingLvl = -3 ∧
    ¬ (Bulk.processAll [(0, "\x7d"), (1, "\x7d"), (2, "\x7d")] (mkBulk 3 0) g0).1.m_nestingLvl = 0 := by
  decide

/-- C6 (amended): an unmatched close marker drives the depth to -1; from
there one additional open marker (not close markers) returns the depth to
0 without emitting anything, and flushing then resumes: for example a
subsequent block `{ a }` emits `bulk: a` again. -/
theorem C6_negative_depth_recovery :
    (∀ (now : Nat) (b : Bulk) (g : Global), b.m_nestingLvl = -1 →
      (Bulk.process now "\x7b" b g).1.m_nestingLvl = 0 ∧
      (Bulk.process now "\x7b" b g).2 = g) ∧
    (Bulk.processAll [(0, "\x7d"), (1, "\x7b"), (2, "\x7b"), (3, "a"), (4, "\x7d")]
        (mkBulk 3 0) g0).2.consoleQ = ["bulk: a"] := by
  constructor
  · intro now b g h
    rw [Bulk.process_open now b g (by omega)]
    constructor
    · show b.m_nestingLvl + 1 = 0
      omega
    · rfl
  · decide

theorem C6_negative_depth_recovery_witness :
    ((Bulk.process 5 "\x7b" ⟨"bulk:", 3, 0, 0, -1⟩ g0).1.m_nestingLvl = 0 ∧
     (Bulk.process 5 "\x7b" ⟨"bulk:", 3, 0, 0, -1⟩ g0).2 = g0) :=
  C6_negative_depth_recovery.1 5 ⟨"bulk:", 3, 0, 0, -1⟩ g0 rfl

/-- C10: `connect` accepts capacity 0 (it just allocates the session), and
a capacity-0 session never flushes on the size threshold: a plain command
only grows the buffer (the count `n + 1` can never equal 0), so the queues
are untouched by plain commands. -/
theorem C10_capacity_zero :
    (∀ (w : World) (now : Nat),
      stepE (Event.connect 0 now) w
        = some { heap := w.heap ++ [some (mkBulk 0 now)], glob := w.glob }) ∧
    (∀ (now : Nat) (cmd : String) (b : Bulk) (g : Global),
      cmd ≠ "\x7b" → cmd ≠ "\x7d" → b.m_buffer_size = 0 →
      (Bulk.process now cmd b g).2 = g ∧
      (Bulk.process now cmd b g).1.m_nCmds = b.m_nCmds + 1) := by
  refine ⟨fun w now => rfl, ?_⟩
  intro now cmd b g hc1 hc2 hsz
  have h : ¬ b.m_nCmds + 1 = b.m_buffer_size := by
    rw [hsz]
    omega
  rw [Bulk.process_plain_no_flush now cmd b g hc1 hc2 h]
  exact ⟨rfl, rfl⟩

theorem C10_capacity_zero_witness :
    (stepE (Event.connect 0 7) w0
      = some { heap := w0.heap ++ [some (mkBulk 0 7)], glob := w0.glob }) ∧
    ((Bulk.process 1 "x" (mkBulk 0 0) g0).2 = g0 ∧
     (Bulk.process 1 "x" (mkBulk 0 0) g0).1.m_nCmds = (mkBulk 0 0).m_nCmds + 1) :=
  ⟨C10_capacity_zero.1 w0 7,
   C10_capacity_zero.2 1 "x" (mkBulk 0 0) g0 (by decide) (by decide) rfl⟩

/-! ## File-name uniqueness (C4) -/

theorem decCharsAux_eq (fuel : Nat) :
    ∀ n, n ≤ fuel → decCharsAux fuel n = ((Nat.digits 10 n).map Nat.digitChar).reverse := by
  induction fuel with
  | zero =>
    intro n hn
    obtain rfl : n = 0 := Nat.le_zero.mp hn
    simp [decCharsAux]
  | succ fuel ih =>
    intro n hn
    by_cases h : n = 0
    · subst h
      simp [decCharsAux]
    · rw [decCharsAux, if_neg h]
      have hdiv : n / 10 ≤ fuel := by
        have : n / 10 < n := Nat.div_lt_self (Nat.pos_of_ne_zero h) (by norm_num)
        omega
      rw [ih (n / 10) hdiv]
      rw [Nat.digits_def' (by norm_num : (1 : ℕ) < 10) (Nat.pos_of_ne_zero h)]
      simp

/-- `decChars` agrees with the base-10 digit expansion. -/
theorem decChars_eq (n : Nat) :
    decChars n = if n = 0 then ['0'] else ((Nat.digits 10 n).map Nat.digitChar).reverse := by
  unfold decChars
  by_cases h : n = 0
  · rw [if_pos h, if_pos h]
  · rw [if_neg h, if_neg h]
    exact decCharsAux_eq n n (le_refl n)

theorem digitChar_ne_underscore : ∀ d < 10, Nat.digitChar d ≠ '_' := by decide

theorem digitChar_inj10 : ∀ a < 10, ∀ b < 10, Nat.digitChar a = Nat.digitChar b → a = b := by
  decide

theorem decChars_mem (n : Nat) : ∀ ch ∈ decChars n, ∃ d, d < 10 ∧ ch = Nat.digitChar d := by
  intro ch hch
  rw [decChars_eq] at hch
  by_cases h : n = 0
  · rw [if_pos h] at hch
    simp at hch
    exact ⟨0, by norm_num, by rw [hch]; rfl⟩
  · rw [if_neg h] at hch
    rw [List.mem_reverse, List.mem_map] at hch
    obtain ⟨d, hd, he⟩ := hch
    exact ⟨d, Nat.digits_lt_base (by norm_num) hd, he.symm⟩

theorem decChars_no_underscore (n : Nat) : '_' ∉ decChars n := by
  intro hmem
  obtain ⟨d, hd, he⟩ := decChars_mem n '_' hmem
  exact digitChar_ne_underscore d hd he.symm

theorem map_digitChar_inj :
    ∀ (l1 l2 : List Nat), (∀ x ∈ l1, x < 10) → (∀ x ∈ l2, x < 10) →
    l1.map Nat.digitChar = l2.map Nat.digitChar → l1 = l2 := by
  intro l1
  induction l1 with
  | nil =>
    intro l2 _ _ h
    cases l2 with
    | nil => rfl
    | cons b l2 => simp at h
  | cons a l1 ih =>
    intro l2 h1 h2 h
    cases l2 with
    | nil => simp at h
    | cons b l2 =>
      simp only [List.map_cons, List.cons.injEq] at h
      have ha : a = b := digitChar_inj10 a (h1 a (by simp)) b (h2 b (by simp)) h.1
      have ht : l1 = l2 := ih l2 (fun x hx => h1 x (by simp [hx]))
        (fun x hx => h2 x (by simp [hx])) h.2
      rw [ha, ht]

theorem decChars_inj (m n : Nat) (h : decChars m = decChars n) : m = n := by
  rw [decChars_eq, decChars_eq] at h
  by_cases hm : m = 0 <;> by_cases hn : n = 0
  · rw [hm, hn]
  · exfalso
    rw [if_pos hm, if_neg hn] at h
    have h' : (Nat.digits 10 n).map Nat.digitChar = ['0'] := by
      have := congrArg List.reverse h
      simpa using this.symm
    rcases hL : Nat.digits 10 n with _ | ⟨d, L⟩
    · rw [hL] at h'
      simp at h'
    · rw [hL] at h'
      simp only [List.map_cons, List.cons.injEq] at h'
      have hd10 : d < 10 := Nat.digits_lt_base (by norm_num) (by rw [hL]; simp)
      have hd0 : d = 0 := digitChar_inj10 d hd10 0 (by norm_num) (by rw [h'.1]; rfl)
      have hLnil : L = [] := List.map_eq_nil_iff.mp h'.2
      have hofd := Nat.ofDigits_digits 10 n
      rw [hL, hLnil, hd0] at hofd
      exact hn (by simpa [Nat.ofDigits_cons, Nat.ofDigits_nil] using hofd.symm)
  · exfalso
    rw [if_neg hm, if_pos hn] at h
    have h' : (Nat.digits 10 m).map Nat.digitChar = ['0'] := by
      have := congrArg List.reverse h
      simpa using this
    rcases hL : Nat.digits 10 m with _ | ⟨d, L⟩
    · rw [hL] at h'
      simp at h'
    · rw [hL] at h'
      simp only [List.map_cons, List.cons.injEq] at h'
      have hd10 : d < 10 := Nat.digits_lt_base (by norm_num) (by rw [hL]; simp)
      have hd0 : d = 0 := digitChar_inj10 d hd10 0 (by norm_num) (by rw [h'.1]; rfl)
      have hLnil : L = [] := List.map_eq_nil_iff.mp h'.2
      have hofd := Nat.ofDigits_digits 10 m
      rw [hL, hLnil, hd0] at hofd
      exact hm (by simpa [Nat.ofDigits_cons, Nat.ofDigits_nil] using hofd.symm)
  · rw [if_neg hm, if_neg hn] at h
    have h1 := List.reverse_injective h
    exact Nat.digits.injective 10 (map_digitChar_inj _ _
      (fun x hx => Nat.digits_lt_base (by norm_num) hx)
      (fun x hx => Nat.digits_lt_base (by norm_num) hx) h1)

theorem append_underscore_inj :
    ∀ (l1 l2 r1 r2 : List Char), '_' ∉ l1 → '_' ∉ l2 →
    l1 ++ '_' :: r1 = l2 ++ '_' :: r2 → l1 = l2 ∧ r1 = r2 := by
  intro l1
  induction l1 with
  | nil =>
    intro l2 r1 r2 _ h2 h
    cases l2 with
    | nil =>
      simp only [List.nil_append, List.cons.injEq, true_and] at h
      exact ⟨rfl, h⟩
    | cons c l2 =>
      exfalso
      simp only [List.nil_append, List.cons_append, List.cons.injEq] at h
      exact h2 (by rw [← h.1]; simp)
  | cons a l1 ih =>
    intro l2 r1 r2 h1 h2 h
    cases l2 with
    | nil =>
      exfalso
      simp only [List.cons_append, List.nil_append, List.cons.injEq] at h
      exact h1 (by rw [h.1]; simp)
    | cons c l2 =>
      simp only [List.cons_append, List.cons.injEq] at h
      have := ih l2 r1 r2 (fun hm => h1 (by simp [hm])) (fun hm => h2 (by simp [hm])) h.2
      exact ⟨by rw [h.1, this.1], this.2⟩

/-- The file name generated by `Bulk::log` determines the counter value
used to build it: distinct counters give distinct names even for equal
timestamps (digits contain no underscore, so the separator is unambiguous). -/
theorem bulkFilename_inj_ctr (t1 c1 t2 c2 : Nat)
    (h : bulkFilename t1 c1 = bulkFilename t2 c2) : c1 = c2 := by
  have hd := congrArg String.data h
  have hmk : ∀ l : List Char, (String.mk l).data = l := fun l => rfl
  have hb : ("bulk" : String).data = ['b', 'u', 'l', 'k'] := rfl
  have hu : ("_" : String).data = ['_'] := rfl
  have hl : (".log" : String).data = ['.', 'l', 'o', 'g'] := rfl
  simp only [bulkFilename, decRepr, String.data_append, hmk, hb, hu, hl,
    List.append_assoc, List.cons_append, List.nil_append, List.cons.injEq,
    true_and] at hd
  obtain ⟨-, htail⟩ := append_underscore_inj _ _ _ _
    (decChars_no_underscore t1) (decChars_no_underscore t2) hd
  exact decChars_inj c1 c2 (List.append_inj_left' htail rfl)

theorem log_namesOK (now : Nat) (b : Bulk) (g : Global) (h : NamesOK g) :
    NamesOK (Bulk.log now b g).2 := by
  by_cases hn : b.m_nCmds > 0
  · have hq : (Bulk.log now b g).2
        = { seqCounter := (g.seqCounter + 1) % uintMod,
            consoleQ := g.consoleQ ++ [b.m_cmds],
            fileQ := g.fileQ ++ [(bulkFilename b.m_time g.seqCounter, b.m_cmds)] } := by
      simp [Bulk.log, hn]
    rw [hq]
    obtain ⟨hc, hnames⟩ := h
    constructor
    · show (g.seqCounter + 1) % uintMod
        = (g.fileQ ++ [(bulkFilename b.m_time g.seqCounter, b.m_cmds)]).length % uintMod
      rw [hc, Nat.mod_add_mod, List.length_append, List.length_singleton]
    · intro i hi
      show ∃ t,
        ((g.fileQ ++ [(bulkFilename b.m_time g.seqCounter, b.m_cmds)]).get ⟨i, hi⟩).1
          = bulkFilename t (i % uintMod)
      rw [List.get_eq_getElem]
      by_cases hilt : i < g.fileQ.length
      · rw [List.getElem_append_left hilt]
        obtain ⟨t, ht⟩ := hnames i hilt
        rw [List.get_eq_getElem] at ht
        exact ⟨t, ht⟩
      · have hlen : i = g.fileQ.length := by
          rw [List.length_append, List.length_singleton] at hi
          omega
        subst hlen
        rw [List.getElem_append_right (le_refl _)]
        refine ⟨b.m_time, ?_⟩
        simp [hc]
  · have hq : (Bulk.log now b g).2 = g := by simp [Bulk.log, hn]
    rw [hq]
    exact h

theorem flush_glob_cases (now : Nat) (b : Bulk) (g : Global) :
    (Bulk.flush now b g).2 = g ∨ (Bulk.flush now b g).2 = (Bulk.log now b g).2 := by
  by_cases h : b.m_nestingLvl = 0
  · right
    simp [Bulk.flush, h]
  · left
    simp [Bulk.flush, h]

theorem flush_namesOK (now : Nat) (b : Bulk) (g : Global) (h : NamesOK g) :
    NamesOK (Bulk.flush now b g).2 := by
  rcases flush_glob_cases now b g with he | he
  · rw [he]; exact h
  · rw [he]; exact log_namesOK now b g h

theorem process_glob_cases (now : Nat) (cmd : String) (b : Bulk) (g : Global) :
    (Bulk.process now cmd b g).2 = g ∨
    ∃ b2, (Bulk.process now cmd b g).2 = (Bulk.log now b2 g).2 := by
  by_cases hco : cmd = "\x7b"
  · subst hco
    by_cases h : b.m_nestingLvl = 0
    · right
      exact ⟨b, by simp [Bulk.process, Bulk.flush, h]⟩
    · left
      simp [Bulk.process, h]
  · by_cases hcc : cmd = "\x7d"
    · subst hcc
      by_cases h : b.m_nestingLvl - 1 = 0
      · right
        exact ⟨{ b with m_nestingLvl := b.m_nestingLvl - 1 },
          by simp [Bulk.process, Bulk.flush, hco, h]⟩
      · left
        simp [Bulk.process, hco, h]
    · by_cases h : b.m_nCmds + 1 = b.m_buffer_size ∧ b.m_nestingLvl = 0
      · right
        refine ⟨{ b with
            m_cmds := (if b.m_nCmds > 0 then b.m_cmds ++ "," else b.m_cmds) ++ " " ++ cmd,
            m_time := if b.m_nCmds > 0 then b.m_time else now,
            m_nCmds := b.m_nCmds + 1 }, ?_⟩
        simp [Bulk.process, Bulk.flush, hco, hcc, h.1, h.2]
      · left
        rcases Decidable.not_and_iff_or_not.mp h with h1 | h2
        · rw [Bulk.process_plain_no_flush now cmd b g hco hcc h1]
        · simp [Bulk.process, hco, hcc, h2]

theorem process_namesOK (now : Nat) (cmd : String) (b : Bulk) (g : Global)
    (h : NamesOK g) : NamesOK (Bulk.process now cmd b g).2 := by
  rcases process_glob_cases now cmd b g with he | ⟨b2, he⟩
  · rw [he]; exact h
  · rw [he]; exact log_namesOK now b2 g h

theorem processList_namesOK (cmds : List String) :
    ∀ (now : Nat) (b : Bulk) (g : Global), NamesOK g →
    NamesOK (Bulk.processList now cmds b g).2 := by
  induction cmds with
  | nil => intro now b g h; exact h
  | cons c rest ih =>
    intro now b g h
    have hcons : Bulk.processList now (c :: rest) b g
        = Bulk.processList now rest (Bulk.process now c b g).1 (Bulk.process now c b g).2 :=
      rfl
    rw [hcons]
    exact ih now _ _ (process_namesOK now c b g h)

theorem stepE_namesOK (e : Event) (w w' : World) (h : NamesOK w.glob)
    (hs : stepE e w = some w') : NamesOK w'.glob := by
  cases e with
  | connect cap now =>
    simp only [stepE, Option.some.injEq] at hs
    rw [← hs]
    exact h
  | receive hdl now data =>
    cases hdl with
    | none =>
      simp only [stepE, Option.some.injEq] at hs
      rw [← hs]
      exact h
    | some i =>
      rcases hh : w.heap[i]? with - | ob
      · rw [stepE, hh] at hs
        exact absurd hs (by simp)
      · cases ob with
        | none =>
          rw [stepE, hh] at hs
          exact absurd hs (by simp)
        | some b =>
          rw [stepE, hh] at hs
          simp only [Option.some.injEq] at hs
          rw [← hs]
          exact processList_namesOK (splitLines data) now b w.glob h
  | disconnect hdl now =>
    cases hdl with
    | none =>
      simp only [stepE, Option.some.injEq] at hs
      rw [← hs]
      exact h
    | some i =>
      rcases hh : w.heap[i]? with - | ob
      · rw [stepE, hh] at hs
        exact absurd hs (by simp)
      · cases ob with
        | none =>
          rw [stepE, hh] at hs
          exact absurd hs (by simp)
        | some b =>
          rw [stepE, hh] at hs
          simp only [Option.some.injEq] at hs
          rw [← hs]
          exact flush_namesOK now b w.glob h

theorem option_bind_some {α β : Type} (a : α) (f : α → Option β) :
    (some a).bind f = f a := rfl

theorem runEvents_nil (w : World) : runEvents [] w = some w := rfl

theorem runEvents_cons (e : Event) (evs : List Event) (w : World) :
    runEvents (e :: evs) w = (stepE e w).bind (fun w1 => runEvents evs w1) := rfl

theorem runEvents_namesOK (evs : List Event) :
    ∀ (w w' : World), NamesOK w.glob → runEvents evs w = some w' →
    NamesOK w'.glob := by
  induction evs with
  | nil =>
    intro w w' h hs
    cases hs
    exact h
  | cons e rest ih =>
    intro w w' h hs
    rw [runEvents_cons] at hs
    rcases hse : stepE e w with - | w1
    · rw [hse] at hs
      exact absurd hs (by simp)
    · rw [hse] at hs
      exact ih w1 w' (stepE_namesOK e w w1 h hse) hs

theorem recvStep (c : Nat) (cq : List String) (fq : List (String × String)) :
    stepE recvA ⟨[some bulkA], ⟨c, cq, fq⟩⟩
      = some ⟨[some bulkA],
          ⟨(c + 1) % uintMod, cq ++ ["bulk: a"],
           fq ++ [(bulkFilename 5 c, "bulk: a")]⟩⟩ := rfl

/-- Closed form of a run of `k` single-command receives on a capacity-1
session: each one flushes one batch named with the current counter value,
and the counter advances modulo `uintMod`. -/
theorem wrapRun (k : Nat) :
    ∀ c : Nat, c < uintMod → ∀ (cq : List String) (fq : List (String × String)),
    runEvents (List.replicate k recvA) ⟨[some bulkA], ⟨c, cq, fq⟩⟩
      = some ⟨[some bulkA],
          ⟨(c + k) % uintMod,
           cq ++ List.replicate k "bulk: a",
           fq ++ (List.range k).map
             (fun i => (bulkFilename 5 ((c + i) % uintMod), "bulk: a"))⟩⟩ := by
  induction k with
  | zero =>
    intro c hc cq fq
    simp [runEvents_nil, Nat.mod_eq_of_lt hc]
  | succ k ih =>
    intro c hc cq fq
    rw [List.replicate_succ, runEvents_cons, recvStep]
    have hrec := ih ((c + 1) % uintMod) (Nat.mod_lt _ (by norm_num [uintMod]))
      (cq ++ ["bulk: a"]) (fq ++ [(bulkFilename 5 c, "bulk: a")])
    have h1 : ((c + 1) % uintMod + k) % uintMod = (c + (k + 1)) % uintMod := by
      rw [Nat.mod_add_mod]
      congr 1
      omega
    have h2 : (cq ++ ["bulk: a"]) ++ List.replicate k "bulk: a"
        = cq ++ List.replicate (k + 1) "bulk: a" := by
      simp [List.replicate_succ]
    have h3 : (fq ++ [(bulkFilename 5 c, "bulk: a")])
          ++ (List.range k).map
               (fun i => (bulkFilename 5 (((c + 1) % uintMod + i) % uintMod), "bulk: a"))
        = fq ++ (List.range (k + 1)).map
               (fun i => (bulkFilename 5 ((c + i) % uintMod), "bulk: a")) := by
      rw [List.range_succ_eq_map, List.map_cons, List.map_map]
      have hhead : (bulkFilename 5 ((c + 0) % uintMod), ("bulk: a" : String))
          = (bulkFilename 5 c, "bulk: a") := by
        rw [Nat.add_zero, Nat.mod_eq_of_lt hc]
      have htail :
          ((fun i => (bulkFilename 5 ((c + i) % uintMod), ("bulk: a" : String)))
              ∘ Nat.succ)
            = fun i => (bulkFilename 5 (((c + 1) % uintMod + i) % uintMod), "bulk: a") := by
        funext i
        show (bulkFilename 5 ((c + (i + 1)) % uintMod), ("bulk: a" : String)) = _
        rw [Nat.mod_add_mod]
        have : c + (i + 1) = c + 1 + i := by omega
        rw [this]
      rw [hhead, htail]
      simp
    exact hrec.trans (by rw [h1, h2, h3])

/-- C4 counterexample: the claim promises distinct names for any two
flushed batches because the counter is "monotonically increasing", but
`postfix_counter` is an `unsigned int` and wraps modulo `uintMod`: a run
of `uintMod + 1` same-timestamp flushes reuses counter value 0, and its
first and last file items carry the identical name `bulkFilename 5 0`. -/
theorem C4_wrap_counterexample :
    runEvents evsWrap w0 = some wrapWorld ∧
    ¬ (wrapWorld.glob.fileQ.map Prod.fst).Pairwise (· ≠ ·) := by
  constructor
  · rw [show evsWrap = Event.connect 1 0 :: recvA :: List.replicate uintMod recvA from rfl]
    rw [runEvents_cons]
    rw [show stepE (Event.connect 1 0) w0 = some ⟨[some (mkBulk 1 0)], g0⟩ from rfl]
    rw [option_bind_some]
    rw [runEvents_cons]
    rw [show stepE recvA ⟨[some (mkBulk 1 0)], g0⟩
      = some ⟨[some bulkA],
          ⟨(0 + 1) % uintMod, ["bulk: a"], [(bulkFilename 5 0, "bulk: a")]⟩⟩ from rfl]
    rw [option_bind_some]
    rw [show (0 + 1) % uintMod = 1 from by norm_num [uintMod]]
    rw [wrapRun uintMod 1 (by norm_num [uintMod]) ["bulk: a"] [(bulkFilename 5 0, "bulk: a")]]
    rw [List.singleton_append, List.singleton_append]
    rw [show wrapWorld
      = ⟨[some bulkA],
         ⟨(1 + uintMod) % uintMod,
          "bulk: a" :: List.replicate uintMod "bulk: a",
          (bulkFilename 5 0, "bulk: a")
            :: (List.range uintMod).map
                 (fun i => (bulkFilename 5 ((1 + i) % uintMod), "bulk: a"))⟩⟩ from rfl]
  · intro hp
    have hm : wrapWorld.glob.fileQ.map Prod.fst
        = bulkFilename 5 0
            :: (List.range uintMod).map (fun i => bulkFilename 5 ((1 + i) % uintMod)) := by
      show (((bulkFilename 5 0, ("bulk: a" : String))
          :: (List.range uintMod).map
               (fun i => (bulkFilename 5 ((1 + i) % uintMod), "bulk: a"))).map Prod.fst) = _
      rw [List.map_cons, List.map_map]
      rfl
    rw [hm, List.pairwise_cons] at hp
    have hmem : bulkFilename 5 0
        ∈ (List.range uintMod).map (fun i => bulkFilename 5 ((1 + i) % uintMod)) := by
      rw [List.mem_map]
      refine ⟨uintMod - 1, ?_, ?_⟩
      · rw [List.mem_range]
        norm_num [uintMod]
      · show bulkFilename 5 ((1 + (uintMod - 1)) % uintMod) = bulkFilename 5 0
        rw [show (1 + (uintMod - 1)) % uintMod = 0 by norm_num [uintMod]]
    exact hp.1 (bulkFilename 5 0) hmem rfl

/-- C4 (amended): in any run of the session API from program start in
which at most `uintMod` batches are flushed in total (so the `unsigned
int` counter `postfix_counter` does not wrap), any two file items carry
distinct file names, even for batches from different sessions flushed
with identical timestamps: below the wrap the counter values embedded in
the names are strictly increasing.  (Beyond `uintMod` flushes the wrap
can reuse a name; see the counterexample.) -/
theorem C4_unique_filenames_below_wrap (evs : List Event) (w' : World)
    (h : runEvents evs w0 = some w') (hlen : w'.glob.fileQ.length ≤ uintMod) :
    (w'.glob.fileQ.map Prod.fst).Pairwise (· ≠ ·) := by
  obtain ⟨-, hnames⟩ := runEvents_namesOK evs w0 w'
    ⟨(Nat.zero_mod uintMod).symm, fun i hi => absurd hi (Nat.not_lt_zero i)⟩ h
  rw [List.pairwise_map, List.pairwise_iff_get]
  intro i j hij
  obtain ⟨ti, hti⟩ := hnames i.1 i.2
  obtain ⟨tj, htj⟩ := hnames j.1 j.2
  intro heq
  rw [hti, htj] at heq
  have hieq := bulkFilename_inj_ctr ti (i.1 % uintMod) tj (j.1 % uintMod) heq
  rw [Nat.mod_eq_of_lt (lt_of_lt_of_le i.2 hlen),
    Nat.mod_eq_of_lt (lt_of_lt_of_le j.2 hlen)] at hieq
  exact absurd (Fin.ext hieq) (Fin.ne_of_lt hij)

theorem C4_unique_filenames_below_wrap_witness :
    ((⟨[some ⟨"bulk:", 1, 0, 5, 0⟩, some ⟨"bulk:", 1, 0, 5, 0⟩],
        ⟨2, ["bulk: a", "bulk: b"],
         [("bulk5_0.log", "bulk: a"), ("bulk5_1.log", "bulk: b")]⟩⟩ : World).glob.fileQ.map
      Prod.fst).Pairwise (· ≠ ·) :=
  C4_unique_filenames_below_wrap
    [Event.connect 1 0, Event.receive (some 0) 5 "a",
     Event.connect 1 0, Event.receive (some 1) 5 "b"]
    ⟨[some ⟨"bulk:", 1, 0, 5, 0⟩, some ⟨"bulk:", 1, 0, 5, 0⟩],
     ⟨2, ["bulk: a", "bulk: b"],
      [("bulk5_0.log", "bulk: a"), ("bulk5_1.log", "bulk: b")]⟩⟩
    (by decide) (by norm_num [uintMod])

/-- C8: `async::disconnect` and `async::receive` on the null handle are
silent no-ops (the source checks the pointer against null), but a second
`disconnect` on the same non-null handle dereferences and `delete`s an
already-freed object: undefined behaviour (modelled as `none`), not a
no-op.  The dead store `pBulk = nullptr` in `async::disconnect` only nulls
a local copy of the handle. -/
theorem C8_double_disconnect :
    runEvents [Event.disconnect none 0] w0 = some w0 ∧
    runEvents [Event.receive none 0 "cmd"] w0 = some w0 ∧
    runEvents [Event.connect 3 0, Event.disconnect (some 0) 1,
               Event.disconnect (some 0) 2] w0 = none := by
  decide

/-- C9: the destructor sets the stop flag and joins every worker, and the
worker exit test keeps draining while items remain; but the destructor
performs no notify on either condition variable, so it does not wake
waiting workers as the claim states. -/
theorem C9_shutdown_no_notify :
    DtorAction.setStopFlag ∈ loggerDtorActions ∧
    (loggerDtorActions.count DtorAction.joinWorker = 3) ∧
    DtorAction.notifyConsoleCv ∉ loggerDtorActions ∧
    DtorAction.notifyFileCv ∉ loggerDtorActions ∧
    workerExits false true = false ∧
    workerExits true true = true ∧
    workerExits true false = false := by
  decide
